import Mathlib

/-!
# Verification of the quantile local-projections pipeline (`quantileproj.py`)

Shallow embedding of the three-stage pipeline of the repository:

* `QuantileProj.__init__`  (specification builder): column selection,
  row-wise dropping of missing values, construction of the forward-shifted
  dependent variables and of the list of derived dependent-variable names;
* `QuantileFit.__init__` / `__qfit_l` / `__coeffs` (fit engine): input
  validation, the (horizon, quantile) fitting loop, assembly of the
  long-format coefficient table;
* `QuantileProjection.__init__` / `__proj_cond_quant` (projection engine):
  validation of the conditioning frame and assembly of the conditional
  quantile forecast table.

Dataframes are modelled column-oriented: an ordered association list of named
columns whose cells are `Option ℚ` (`none` models a missing value / NaN),
together with the row-index labels.  The external quantile-regression solver
(`statsmodels.formula.api.quantreg(...).fit(...)`) is an explicit parameter:
an abstract function returning a fitted-model handle.  The statsmodels
formula API guarantee that the parameter vector of `y ~ x1 + ... + xk` is
indexed by `Intercept, x1, ..., xk` is kept as an explicit hypothesis
(`SolverShape`) where a theorem needs it.

Python `assert` failures are modelled by `Except.error` carrying the assert
message; the type-level `isinstance` asserts of the source hold by typing in
the embedding and are not repeated.  The commented-out plotting code and the
`zscore` ancillary (out of the specified core) are not modelled.
-/

/-- A dataframe cell: `none` models a missing value (NaN). -/
abbrev Cell := Option ℚ

/-- Column-oriented dataframe: ordered association list of named columns plus
the row-index labels (an original row position for each row). -/
structure Frame where
  cols : List (String × List Cell)
  index : List Nat
deriving Repr

/-- Keep the entries of `xs` whose position carries `true` in the mask
(row-wise boolean filtering, as `pandas` does for `dropna`). -/
def maskFilter (m : List Bool) (xs : List α) : List α :=
  (m.zip xs).filterMap (fun p => if p.1 then some p.2 else none)

/-- The ordered list of column names of a frame. -/
def Frame.colNames (f : Frame) : List String :=
  f.cols.map Prod.fst

/-- The cells of the (first) column named `name`; `[]` when absent
(the source only reads columns it has checked to exist). -/
def Frame.getCol (f : Frame) (name : String) : List Cell :=
  match f.cols.find? (fun c => decide (c.1 = name)) with
  | some c => c.2
  | none => []

/-- Number of rows of a frame. -/
def Frame.nrows (f : Frame) : Nat :=
  f.index.length

/-- Embedding of `data[names]`: column selection, in the order given by `names`. -/
def Frame.select (f : Frame) (names : List String) : Frame :=
  { cols := names.map (fun n => (n, f.getCol n)), index := f.index }

/-- The row mask of `.dropna()`: `true` at the positions where every column
holds a non-missing cell. -/
def Frame.dropnaMask (f : Frame) : List Bool :=
  (List.range f.index.length).map
    (fun i => f.cols.all (fun c => ((c.2[i]?).getD none).isSome))

/-- Embedding of `.dropna()`: drop every row containing a missing value in some column. -/
def Frame.dropna (f : Frame) : Frame :=
  { cols := f.cols.map (fun c => (c.1, maskFilter f.dropnaMask c.2)),
    index := maskFilter f.dropnaMask f.index }

/-- Column assignment `f[name] = cells`: overwrite the column when the name
exists, append it at the end otherwise (the `pandas` semantics). -/
def setCol (cols : List (String × List Cell)) (name : String) (cells : List Cell) :
    List (String × List Cell) :=
  if cols.any (fun c => decide (c.1 = name)) then
    cols.map (fun c => if c.1 = name then (name, cells) else c)
  else cols ++ [(name, cells)]

/-- Frame-level column assignment. -/
def Frame.addCol (f : Frame) (name : String) (cells : List Cell) : Frame :=
  { cols := setCol f.cols name cells, index := f.index }

/-- Embedding of `series.shift(-h)` on a column of length `n`: the value at position `i`
becomes the value originally at position `i + h`; the last `h` positions
become missing. -/
def shiftFwd (h : Nat) (xs : List Cell) : List Cell :=
  xs.drop h ++ List.replicate (min h xs.length) none

/-- The deterministic name of the forward-shifted dependent variable:
`f'{depvar}_fwd_{h}'`. -/
def fwdName (depvar : String) (h : Int) : String :=
  depvar ++ "_fwd_" ++ toString h

/-- The name the source gives the derived dependent variable of horizon `h`:
`depvar` itself at `h = 0`, `fwdName` for `h > 0`. -/
def derivedName (depvar : String) (h : Int) : String :=
  if h = 0 then depvar else fwdName depvar h

/-- The list `self.depvar_l` built by `QuantileProj.__init__`: one entry per
horizon of the INPUT list (in input order); `h = 0` contributes the
dependent variable itself, `h > 0` contributes the forward name, and a
negative `h` contributes nothing (both `if` branches of the source fail). -/
def mkDepvarList (depvar : String) (horizon_l : List Int) : List String :=
  horizon_l.flatMap (fun h =>
    (if h = 0 then [depvar] else []) ++ (if 0 < h then [fwdName depvar h] else []))

/-- The column-creating loop of `QuantileProj.__init__`: for each `h > 0` of
the INPUT horizon list, assign
`self.data[f'{depvar}_fwd_{h}'] = self.data[depvar].shift(-h)`. -/
def addFwdCols (depvar : String) (horizon_l : List Int) (f : Frame) : Frame :=
  horizon_l.foldl
    (fun acc h =>
      if 0 < h then acc.addCol (fwdName depvar h) (shiftFwd h.toNat (acc.getCol depvar))
      else acc)
    f

/-! ## Input validation (the `unittest` methods of the source) -/

/-- Embedding of `QuantileProj.__quantilemod_unittest`: beyond the type-level `isinstance`
asserts (which hold by typing here), the only check is that `depvar` and all
independent variables are columns of the data.  NOTE: the source's assert
message is the plain literal `'f{mv_l} are not in data columns'` (the `f`
prefix of the intended f-string is inside the quotes), so the message never
contains the offending names; the embedding keeps that literal.  No check
relates to the values of `horizon_l`. -/
def quantilemodUnittest (depvar : String) (indvar_l : List String)
    (dataCols : List String) (horizon_l : List Int) : Except String Unit :=
  let mv_l := ([depvar] ++ indvar_l).filter (fun x => decide (x ∉ dataCols))
  if mv_l = [] then Except.ok ()
  else Except.error "f\x7bmv_l\x7d are not in data columns"

/-- Embedding of `QuantileFit.__quantilefit_unittest`: the confidence parameter and every
quantile must lie strictly inside (0,1).  There is no non-emptiness check on
the quantile list. -/
def quantilefitUnittest (quantile_l : List ℚ) (alpha : ℚ) : Except String Unit :=
  if 0 < alpha ∧ alpha < 1 then
    if quantile_l.all (fun q => decide (0 < q) && decide (q < 1)) then Except.ok ()
    else Except.error "quantile should be in (0,1)"
  else Except.error "level of confidence should be in (0,1)"

/-- Render a list of names the way Python renders a list of strings in an
f-string: `['a', 'b']`.  Inner part, without the surrounding brackets. -/
def pyReprAux : List String → String
  | [] => ""
  | [s] => "\x27" ++ s ++ "\x27"
  | s :: rest => "\x27" ++ s ++ "\x27" ++ ", " ++ pyReprAux rest

/-- Python `repr` of a list of strings, as interpolated by an f-string. -/
def pyRepr (l : List String) : String :=
  "[" ++ pyReprAux l ++ "]"

/-- Embedding of `QuantileProjection.__quantileproj_unittest`: every independent variable
must be a column of the conditioning frame; this assert message is a genuine
f-string and does name the missing columns. -/
def quantileprojUnittest (indvar_l : List String) (condCols : List String) :
    Except String Unit :=
  let mv_l := indvar_l.filter (fun x => decide (x ∉ condCols))
  if mv_l = [] then Except.ok ()
  else Except.error (pyRepr mv_l ++ " not in conditioning frame columns")

/-! ## Stage 1: the specification builder (`QuantileProj`) -/

/-- The state built by `QuantileProj.__init__`: the attributes of the Python
object that the later stages read. -/
structure QuantileProj where
  depvar : String
  indvar_l : List String
  horizon_l : List Int
  data : Frame
  depvar_l : List String

/-- The attribute construction of `QuantileProj.__init__` after validation:
`horizon_l` is stored SORTED, the data is restricted to the used columns and
cleared of missing rows, the derived names (`depvar_l`) and the shifted
columns are built from the INPUT horizon list in input order. -/
def quantileProjBuild (depvar : String) (indvar_l : List String) (data : Frame)
    (horizon_l : List Int) : QuantileProj :=
  let cleaned := (data.select ([depvar] ++ indvar_l)).dropna
  { depvar := depvar
    indvar_l := indvar_l
    horizon_l := List.insertionSort (· ≤ ·) horizon_l
    data := addFwdCols depvar horizon_l cleaned
    depvar_l := mkDepvarList depvar horizon_l }

/-- Embedding of `QuantileProj.__init__`: run the validation, then build the state.  An
assert failure propagates and no state is produced. -/
def quantileProjInit (depvar : String) (indvar_l : List String) (data : Frame)
    (horizon_l : List Int) : Except String QuantileProj :=
  match quantilemodUnittest depvar indvar_l data.colNames horizon_l with
  | Except.error e => Except.error e
  | Except.ok _ => Except.ok (quantileProjBuild depvar indvar_l data horizon_l)

/-- The (horizon, derived-depvar) pairs over which `QuantileFit.__qfit_l`
iterates: `zip(self.horizon_l, self.depvar_l)` — the SORTED horizons zipped
with the INPUT-ordER derived names. -/
def qfitPairs (st : QuantileProj) : List (Int × String) :=
  List.zip st.horizon_l st.depvar_l

/-! ## Stage 2: the fit engine (`QuantileFit`) -/

/-- Abstract handle of a fitted quantile regression, as returned by the
external solver: per-regressor point estimates and inference statistics, the
pseudo-R², and a prediction operation over an exogenous frame returning, per
conditioning row, (mean, mean_se, lower, upper) as in
`get_prediction(...).summary_frame()`. -/
structure QRegFit where
  paramNames : List String
  coeff : String → ℚ
  tval : String → ℚ
  pval : String → ℚ
  ciLower : ℚ → String → ℚ
  ciUpper : ℚ → String → ℚ
  prsquared : ℚ
  predict : Frame → List (ℚ × ℚ × ℚ × ℚ)

/-- The external solver `smf.quantreg(formula, data).fit(q, maxiter, p_tol)`:
takes the formula components (response name and regressor names), the data,
the target quantile and the tuning limits. -/
abbrev Solver := String → List String → Frame → ℚ → Nat → ℚ → QRegFit

/-- The statsmodels formula-API guarantee: the parameter vector of
`y ~ x1 + ... + xk` is indexed by `Intercept, x1, ..., xk`. -/
def SolverShape (solver : Solver) : Prop :=
  ∀ dv iv dat t mi pt, (solver dv iv dat t mi pt).paramNames = "Intercept" :: iv

/-- One entry of `self.qfit_l`: the namedtuple
`Qfit(depvar, horizon, tau, qfit)`. -/
structure QFitRec where
  depvar : String
  horizon : Int
  tau : ℚ
  qfit : QRegFit

/-- One row of the coefficient table `self.coeffs`: row label = regressor
name, columns (tau, horizon, coeff, tval, pval, lower_ci, upper_ci,
pseudo_r2). -/
structure CoeffRow where
  regressor : String
  tau : ℚ
  horizon : Int
  coeff : ℚ
  tval : ℚ
  pval : ℚ
  lower_ci : ℚ
  upper_ci : ℚ
  pseudo_r2 : ℚ

/-- The state built by `QuantileFit.__init__`: the builder state (held by
reference), the SORTED quantile list, the confidence parameter, the fit
records and the coefficient table. -/
structure QuantileFit where
  base : QuantileProj
  quantile_l : List ℚ
  alpha : ℚ
  qfit_l : List QFitRec
  coeffs : List CoeffRow

/-- Embedding of `QuantileFit.__qfit_l`: for each pair of `zip(self.horizon_l,
self.depvar_l)` (outer loop) and each stored quantile (inner loop), invoke
the solver with `maxiter = 1000`, `p_tol = 1e-05` and collect the record. -/
def mkQfitList (solver : Solver) (st : QuantileProj) (quantile_s : List ℚ) :
    List QFitRec :=
  (qfitPairs st).flatMap (fun hd =>
    quantile_s.map (fun tau =>
      { depvar := hd.2, horizon := hd.1, tau := tau,
        qfit := solver hd.2 st.indvar_l st.data tau 1000 (1 / 100000) }))

/-- The rows of the concatenated coefficient frame: for each fit record, one
row per parameter of the fitted model, labelled with the record's tau and
horizon, all blocks in record order.  This is the content of
`pd.concat(depvar_frames_l)` on a NON-EMPTY frame list. -/
def mkCoeffsRows (alpha : ℚ) (recs : List QFitRec) : List CoeffRow :=
  recs.flatMap (fun qf =>
    qf.qfit.paramNames.map (fun v =>
      { regressor := v, tau := qf.tau, horizon := qf.horizon,
        coeff := qf.qfit.coeff v, tval := qf.qfit.tval v, pval := qf.qfit.pval v,
        lower_ci := qf.qfit.ciLower alpha v, upper_ci := qf.qfit.ciUpper alpha v,
        pseudo_r2 := qf.qfit.prsquared }))

/-- Embedding of `QuantileFit.__coeffs`: one small frame per fit record,
concatenated with `pd.concat(depvar_frames_l)`.  With an EMPTY record list
the frame list is empty and `pd.concat` raises
`ValueError('No objects to concatenate')`; the error is modelled as
`Except.error` with pandas' message. -/
def mkCoeffs (alpha : ℚ) (recs : List QFitRec) : Except String (List CoeffRow) :=
  match recs with
  | [] => Except.error "No objects to concatenate"
  | q :: qs => Except.ok (mkCoeffsRows alpha (q :: qs))

/-- On a non-empty record list the concatenation succeeds with the rows. -/
theorem mkCoeffs_ne_nil (alpha : ℚ) (recs : List QFitRec) (hne : recs ≠ []) :
    mkCoeffs alpha recs = Except.ok (mkCoeffsRows alpha recs) := by
  cases recs with
  | nil => exact absurd rfl hne
  | cons q qs => rfl

/-- The attribute construction of `QuantileFit.__init__` on the SUCCESSFUL
path (validation passed and the coefficient concatenation did not raise):
quantiles stored sorted, then the fit loop, then the coefficient table. -/
def quantileFitBuild (solver : Solver) (st : QuantileProj) (quantile_l : List ℚ)
    (alpha : ℚ) : QuantileFit :=
  let quantile_s := List.insertionSort (· ≤ ·) quantile_l
  let recs := mkQfitList solver st quantile_s
  { base := st, quantile_l := quantile_s, alpha := alpha,
    qfit_l := recs, coeffs := mkCoeffsRows alpha recs }

/-- Embedding of `QuantileFit.__init__`: run the validation, run the fit
loop, then assemble the coefficient table; a validation assert or the
`pd.concat` error of `__coeffs` propagates, and no fit state is produced. -/
def quantileFitInit (solver : Solver) (st : QuantileProj) (quantile_l : List ℚ)
    (alpha : ℚ) : Except String QuantileFit :=
  match quantilefitUnittest quantile_l alpha with
  | Except.error e => Except.error e
  | Except.ok _ =>
    match mkCoeffs alpha
        (mkQfitList solver st (List.insertionSort (· ≤ ·) quantile_l)) with
    | Except.error e => Except.error e
    | Except.ok _ => Except.ok (quantileFitBuild solver st quantile_l alpha)

/-! ## Stage 3: the projection engine (`QuantileProjection`) -/

/-- One row of the conditional-quantile forecast table: row label = the
conditioning row's index label; columns (tau, horizon) plus the prefixed
prediction statistics of `summary_frame()`. -/
structure ProjRow where
  idx : Nat
  tau : ℚ
  horizon : Int
  mean : ℚ
  mean_se : ℚ
  lower : ℚ
  upper : ℚ

/-- The state built by `QuantileProjection.__init__`. -/
structure QuantileProjection where
  fit : QuantileFit
  cond_frame : Frame
  proj_condquant : List ProjRow

/-- Embedding of `QuantileProjection.__proj_cond_quant`: for each fit record in order,
predict at the conditioning frame, re-index by the conditioning frame's
index, tag with the record's tau and horizon, and concatenate the blocks. -/
def projCondQuant (qfit_l : List QFitRec) (cond_frame : Frame) : List ProjRow :=
  qfit_l.flatMap (fun qf =>
    (List.zip cond_frame.index (qf.qfit.predict cond_frame)).map (fun p =>
      { idx := p.1, tau := qf.tau, horizon := qf.horizon,
        mean := p.2.1, mean_se := p.2.2.1, lower := p.2.2.2.1, upper := p.2.2.2.2 }))

/-- The attribute construction of `QuantileProjection.__init__` after
validation. -/
def quantileProjectionBuild (fit : QuantileFit) (cond_frame : Frame) :
    QuantileProjection :=
  { fit := fit, cond_frame := cond_frame,
    proj_condquant := projCondQuant fit.qfit_l cond_frame }

/-- Embedding of `QuantileProjection.__init__`: run the validation (the conditioning frame
must hold every independent variable), then build the state; on an assert
failure no forecast table is constructed. -/
def quantileProjectionInit (fit : QuantileFit) (cond_frame : Frame) :
    Except String QuantileProjection :=
  match quantileprojUnittest fit.base.indvar_l cond_frame.colNames with
  | Except.error e => Except.error e
  | Except.ok _ => Except.ok (quantileProjectionBuild fit cond_frame)

/-! ## Concrete inputs used by counterexamples and witnesses -/

/-- A complete two-column frame (columns y, x; three rows; no missing). -/
def exDataFull : Frame :=
  { cols := [("y", [some 1, some 2, some 3]),
             ("x", [some 4, some 5, some 6])],
    index := [0, 1, 2] }

/-- A frame whose only column is x (no column y). -/
def exDataX : Frame :=
  { cols := [("x", [some 5, some 6])], index := [0, 1] }

/-- A four-row frame with columns y, x where row 1 has a missing y. -/
def exDataGap : Frame :=
  { cols := [("y", [some 1, none, some 3, some 4]),
             ("x", [some 5, some 6, some 7, some 8])],
    index := [0, 1, 2, 3] }

/-- A conditioning frame without the column x. -/
def exCondZ : Frame := { cols := [("z", [some 1])], index := [0] }

/-- A concrete solver instance for witnesses: zero statistics under the
statsmodels parameter labelling, one prediction row per conditioning row. -/
def trivSolver : Solver := fun _ iv _ _ _ _ =>
  { paramNames := "Intercept" :: iv,
    coeff := fun _ => 0, tval := fun _ => 0, pval := fun _ => 0,
    ciLower := fun _ _ => 0, ciUpper := fun _ _ => 0, prsquared := 0,
    predict := fun c => c.index.map (fun _ => (0, 0, 0, 0)) }

/-! ## Claim C1 -/

/-- C1: the claim states that the derived dependent-variable names are
aligned 1:1 with the SORTED horizon list for any input horizon list, so that
the fit engine pairs each horizon `h` with the variable shifted by `h`.  The
code stores `self.horizon_l = sorted(horizon_l)` but builds `self.depvar_l`
by iterating the UNSORTED input list, and `__qfit_l` zips the two; on the
valid unsorted input `horizon_l = [2, 1]` the pairs are
`(1, y_fwd_2), (2, y_fwd_1)`: horizon 1 is paired with the variable shifted
by 2.  This theorem evaluates the embedded code at that failing input. -/
theorem c1_pairing_misaligned_on_unsorted_horizons :
    Except.map qfitPairs (quantileProjInit "y" ["x"] exDataFull [2, 1]) =
      Except.ok [(1, fwdName "y" 2), (2, fwdName "y" 1)]
    ∧ fwdName "y" 2 ≠ fwdName "y" 1 :=
  ⟨rfl, by decide⟩

/-! ## Claim C2 -/

/-- C2: the claim states that a missing depvar/indvar name fails with an
error whose message names the offending names.  Construction does fail and
produces no output, but the assert message in the source is the literal
`'f{mv_l} are not in data columns'` — the `f` of the intended f-string sits
inside the quotes — so the message never contains the missing names.  At the
failing input (depvar `y` absent from the data columns) the error text does
not contain `y` as a substring. -/
theorem c2_missing_name_error_message_is_literal :
    quantileProjInit "y" ["x"] exDataX [0] =
      Except.error "f\x7bmv_l\x7d are not in data columns"
    ∧ ¬ ("y".data <:+: "f\x7bmv_l\x7d are not in data columns".data) :=
  ⟨rfl, by decide⟩

/-! ## Claim C3 -/

/-- C3 counterexample: the claim states that a horizon list containing a
negative integer fails validation immediately.  On the concrete valid data
with `horizon_l = [-1]` the whole builder succeeds (no error is raised), and
the negative horizon silently contributes no derived dependent variable. -/
theorem c3_counterexample_negative_horizon_accepted :
    quantileProjInit "y" ["x"] exDataFull [-1] =
      Except.ok (quantileProjBuild "y" ["x"] exDataFull [-1])
    ∧ (quantileProjBuild "y" ["x"] exDataFull [-1]).depvar_l = [] :=
  ⟨rfl, rfl⟩

/-- The derived-name construction skips exactly the negative horizons: it
coincides with the construction run on the non-negative sublist. -/
theorem mkDepvarList_filter_nonneg (depvar : String) (horizon_l : List Int) :
    mkDepvarList depvar horizon_l =
      mkDepvarList depvar (horizon_l.filter (fun h => decide (0 ≤ h))) := by
  induction horizon_l with
  | nil => rfl
  | cons h t ih =>
    by_cases h3 : (0 : Int) ≤ h
    · have hf : List.filter (fun x => decide (0 ≤ x)) (h :: t)
          = h :: List.filter (fun x => decide (0 ≤ x)) t := by
        simp [List.filter_cons, h3]
      rw [hf]
      simp only [mkDepvarList, List.flatMap_cons] at ih ⊢
      rw [ih]
    · have h1 : ¬ (h = 0) := by omega
      have h2 : ¬ (0 < h) := by omega
      have hf : List.filter (fun x => decide (0 ≤ x)) (h :: t)
          = List.filter (fun x => decide (0 ≤ x)) t := by
        simp [List.filter_cons, h3]
      rw [hf]
      simp only [mkDepvarList, List.flatMap_cons, if_neg h1, if_neg h2,
        List.nil_append] at ih ⊢
      simpa using ih

/-- C3, amended: validation never inspects the horizon values (the source
only asserts `isinstance(horizon, int)`, which holds by typing here), so a
negative horizon passes validation; the derived-variable construction then
silently skips every negative horizon. -/
theorem c3_amended_negative_horizons_silently_skipped (depvar : String)
    (indvar_l : List String) (dataCols : List String) (horizon_l : List Int) :
    quantilemodUnittest depvar indvar_l dataCols horizon_l =
      quantilemodUnittest depvar indvar_l dataCols []
    ∧ mkDepvarList depvar horizon_l =
      mkDepvarList depvar (horizon_l.filter (fun h => decide (0 ≤ h))) :=
  ⟨rfl, mkDepvarList_filter_nonneg depvar horizon_l⟩

/-! ## Claim C4 -/

/-- C4 counterexample: the claim states that an empty quantile list fails
with a validation error before any regression is estimated.  In the source
the validation loop over an empty list checks nothing, so validation
succeeds and the (empty) fitting loop runs; the call then fails later and
differently: `__coeffs` calls `pd.concat` on an empty frame list, which
raises `ValueError('No objects to concatenate')` — a pandas assembly error
after the fit loop, not a validation error. -/
theorem c4_counterexample_empty_quantile_list_accepted :
    quantilefitUnittest [] (1/2) = Except.ok ()
    ∧ quantileFitInit trivSolver (quantileProjBuild "y" ["x"] exDataFull [0]) [] (1/2)
        = Except.error "No objects to concatenate"
    ∧ "No objects to concatenate" ≠ "quantile should be in (0,1)"
    ∧ "No objects to concatenate" ≠ "level of confidence should be in (0,1)" := by
  have h1 : quantilefitUnittest [] (1/2 : ℚ) = Except.ok () := by
    norm_num [quantilefitUnittest]
  refine ⟨h1, ?_, by decide, by decide⟩
  unfold quantileFitInit
  rw [h1]
  have h2 : mkQfitList trivSolver (quantileProjBuild "y" ["x"] exDataFull [0])
      (List.insertionSort (· ≤ ·) ([] : List ℚ)) = [] := rfl
  rw [h2]
  rfl

theorem flatMap_nil_fun (l : List α) : (l.flatMap fun _ => ([] : List β)) = [] := by
  induction l with
  | nil => rfl
  | cons a t ih =>
    rw [List.flatMap_cons, ih]
    rfl

/-- C4, amended: validation succeeds exactly when the confidence level and
every quantile lie strictly inside (0,1) — emptiness of the quantile list is
NOT checked; whenever validation succeeds, every stored (sorted) quantile
lies strictly inside (0,1).  When validation succeeds and some fit record
exists, the construction completes; when validation succeeds on an EMPTY
quantile list, the construction still fails, but later and differently, with
pandas' `ValueError('No objects to concatenate')` from coefficient-table
assembly after the (empty) fitting loop; when validation fails, its error
propagates before any regression is estimated (no fit state is built). -/
theorem c4_amended_fit_validation (quantile_l : List ℚ) (alpha : ℚ) :
    (quantilefitUnittest quantile_l alpha = Except.ok () ↔
      (0 < alpha ∧ alpha < 1 ∧ ∀ q ∈ quantile_l, 0 < q ∧ q < 1))
    ∧ (quantilefitUnittest quantile_l alpha = Except.ok () →
        ∀ q ∈ List.insertionSort (· ≤ ·) quantile_l, 0 < q ∧ q < 1)
    ∧ (∀ solver st, quantilefitUnittest quantile_l alpha = Except.ok () →
        mkQfitList solver st (List.insertionSort (· ≤ ·) quantile_l) ≠ [] →
        quantileFitInit solver st quantile_l alpha
          = Except.ok (quantileFitBuild solver st quantile_l alpha))
    ∧ (∀ solver st, quantilefitUnittest quantile_l alpha = Except.ok () →
        quantile_l = [] →
        quantileFitInit solver st quantile_l alpha
          = Except.error "No objects to concatenate")
    ∧ (∀ solver st e, quantilefitUnittest quantile_l alpha = Except.error e →
        quantileFitInit solver st quantile_l alpha = Except.error e) := by
  have hchar : quantilefitUnittest quantile_l alpha = Except.ok () ↔
      (0 < alpha ∧ alpha < 1 ∧ ∀ q ∈ quantile_l, 0 < q ∧ q < 1) := by
    unfold quantilefitUnittest
    by_cases ha : 0 < alpha ∧ alpha < 1
    · rw [if_pos ha]
      by_cases hq : quantile_l.all (fun q => decide (0 < q) && decide (q < 1))
      · rw [if_pos hq]
        simp only [List.all_eq_true, Bool.and_eq_true, decide_eq_true_eq] at hq
        simp only [true_iff, ha.1, ha.2, true_and]
        exact fun q hqm => hq q hqm
      · rw [if_neg hq]
        simp only [List.all_eq_true, Bool.and_eq_true, decide_eq_true_eq] at hq
        constructor
        · intro hcontra; exact absurd hcontra (by simp)
        · intro hall; exact absurd (fun q hqm => hall.2.2 q hqm) hq
    · rw [if_neg ha]
      constructor
      · intro hcontra; exact absurd hcontra (by simp)
      · intro hall; exact absurd ⟨hall.1, hall.2.1⟩ ha
  refine ⟨hchar, ?_, ?_, ?_, ?_⟩
  · intro hok q hqm
    exact (hchar.mp hok).2.2 q ((List.mem_insertionSort _).mp hqm)
  · intro solver st hok hne
    unfold quantileFitInit
    rw [hok]
    rw [mkCoeffs_ne_nil alpha _ hne]
  · intro solver st hok he
    subst he
    unfold quantileFitInit
    rw [hok]
    have hrec : mkQfitList solver st (List.insertionSort (· ≤ ·) ([] : List ℚ)) = [] :=
      flatMap_nil_fun (qfitPairs st)
    rw [hrec]
    rfl
  · intro solver st e herr
    unfold quantileFitInit
    rw [herr]

/-- Witness for the amended C4: the theorem instantiated at the concrete
quantile list `[1/4, 1/2, 3/4]` and confidence parameter `1/10`. -/
theorem c4_amended_fit_validation_witness :
    quantilefitUnittest [1/4, 1/2, 3/4] (1/10) = Except.ok () :=
  (c4_amended_fit_validation [1/4, 1/2, 3/4] (1/10)).1.mpr (by norm_num)

/-! ## List-level helper lemmas -/

theorem maskFilter_nil_right (m : List Bool) : maskFilter m ([] : List α) = [] := by
  simp [maskFilter]

theorem maskFilter_cons (b : Bool) (m : List Bool) (x : α) (xs : List α) :
    maskFilter (b :: m) (x :: xs)
      = if b then x :: maskFilter m xs else maskFilter m xs := by
  cases b <;> simp [maskFilter, List.zip_cons_cons, List.filterMap_cons]

theorem maskFilter_length_le (m : List Bool) (xs : List α) :
    (maskFilter m xs).length ≤ xs.length := by
  induction m generalizing xs with
  | nil => simp [maskFilter]
  | cons b m ih =>
    cases xs with
    | nil => simp [maskFilter]
    | cons x xs =>
      rw [maskFilter_cons]
      cases b with
      | true => simpa using ih xs
      | false => simpa using Nat.le_succ_of_le (ih xs)

theorem maskFilter_length_eq (m : List Bool) (xs : List α) (ys : List β)
    (h : xs.length = ys.length) :
    (maskFilter m xs).length = (maskFilter m ys).length := by
  induction m generalizing xs ys with
  | nil => simp [maskFilter]
  | cons b m ih =>
    cases xs with
    | nil => cases ys with
      | nil => rfl
      | cons y ys => simp at h
    | cons x xs =>
      cases ys with
      | nil => simp at h
      | cons y ys =>
        simp only [List.length_cons, Nat.succ.injEq] at h
        rw [maskFilter_cons, maskFilter_cons]
        cases b with
        | true => simpa using ih xs ys h
        | false => simpa using ih xs ys h

theorem maskFilter_zip (m : List Bool) (xs : List α) (ys : List β)
    (h : xs.length = ys.length) :
    maskFilter m (xs.zip ys) = (maskFilter m xs).zip (maskFilter m ys) := by
  induction m generalizing xs ys with
  | nil => simp [maskFilter]
  | cons b m ih =>
    cases xs with
    | nil =>
      cases ys with
      | nil => rfl
      | cons y ys => simp at h
    | cons x xs =>
      cases ys with
      | nil => simp at h
      | cons y ys =>
        simp only [List.length_cons, Nat.succ.injEq] at h
        rw [List.zip_cons_cons, maskFilter_cons, maskFilter_cons, maskFilter_cons]
        cases b with
        | true => rw [if_pos rfl, if_pos rfl, if_pos rfl, List.zip_cons_cons, ih xs ys h]
        | false => simpa using ih xs ys h

theorem maskFilter_getElem?_pos (m : List Bool) (xs : List α) (k : Nat) (x : α)
    (h : (maskFilter m xs)[k]? = some x) :
    ∃ t, k ≤ t ∧ xs[t]? = some x := by
  induction m generalizing xs k with
  | nil => simp [maskFilter] at h
  | cons b m ih =>
    cases xs with
    | nil => simp [maskFilter] at h
    | cons y xs =>
      rw [maskFilter_cons] at h
      cases b with
      | true =>
        rw [if_pos rfl] at h
        cases k with
        | zero =>
          refine ⟨0, Nat.le_refl 0, ?_⟩
          simpa using h
        | succ k =>
          simp only [List.getElem?_cons_succ] at h
          obtain ⟨t, hkt, hx⟩ := ih xs k h
          exact ⟨t + 1, by omega, by simpa using hx⟩
      | false =>
        rw [if_neg (by simp)] at h
        obtain ⟨t, hkt, hx⟩ := ih xs k h
        exact ⟨t + 1, by omega, by simpa using hx⟩

theorem maskFilter_mem (m : List Bool) (xs : List α) (x : α)
    (h : x ∈ maskFilter m xs) :
    ∃ j : Nat, m[j]? = some true ∧ xs[j]? = some x := by
  induction m generalizing xs with
  | nil => simp [maskFilter] at h
  | cons b m ih =>
    cases xs with
    | nil => simp [maskFilter] at h
    | cons y xs =>
      rw [maskFilter_cons] at h
      cases b with
      | true =>
        rw [if_pos rfl] at h
        rcases List.mem_cons.mp h with hx | hx
        · exact ⟨0, by simp, by simp [hx]⟩
        · obtain ⟨j, hm, hj⟩ := ih xs hx
          exact ⟨j + 1, by simpa using hm, by simpa using hj⟩
      | false =>
        rw [if_neg (by simp)] at h
        obtain ⟨j, hm, hj⟩ := ih xs h
        exact ⟨j + 1, by simpa using hm, by simpa using hj⟩

/-! ## Frame-operation lemmas -/

theorem Frame.getCol_dropna (f : Frame) (n : String) :
    f.dropna.getCol n = maskFilter f.dropnaMask (f.getCol n) := by
  unfold Frame.getCol Frame.dropna
  simp only [List.find?_map]
  cases hf : f.cols.find? (fun c => decide (c.1 = n)) with
  | none =>
    have : (f.cols.find? ((fun c => decide (c.1 = n)) ∘ (fun c => (c.1, maskFilter f.dropnaMask c.2)))) = none := by
      simpa using hf
    rw [this]
    simp [maskFilter]
  | some c =>
    have : (f.cols.find? ((fun c => decide (c.1 = n)) ∘ (fun c => (c.1, maskFilter f.dropnaMask c.2)))) = some c := by
      simpa using hf
    rw [this]
    simp

theorem Frame.index_dropna (f : Frame) :
    f.dropna.index = maskFilter f.dropnaMask f.index := rfl

theorem Frame.index_select (f : Frame) (names : List String) :
    (f.select names).index = f.index := rfl

theorem Frame.getCol_select_mem (f : Frame) (names : List String) (n : String)
    (h : n ∈ names) :
    (f.select names).getCol n = f.getCol n := by
  unfold Frame.select Frame.getCol
  induction names with
  | nil => simp at h
  | cons a t ih =>
    by_cases ha : a = n
    · subst ha
      simp
    · rcases List.mem_cons.mp h with rfl | hmem
      · simp at ha
      · simp only [List.map_cons]
        rw [List.find?_cons_of_neg _ (by simpa using ha)]
        exact ih hmem

theorem find?_setCol_map_self (cols : List (String × List Cell)) (m : String)
    (cells : List Cell) :
    (cols.map (fun c => if c.1 = m then (m, cells) else c)).find?
        (fun c => decide (c.1 = m))
      = if cols.any (fun c => decide (c.1 = m)) then some (m, cells) else none := by
  induction cols with
  | nil => rfl
  | cons c t ih =>
    by_cases hc : c.1 = m
    · simp only [List.map_cons, if_pos hc, List.any_cons, decide_eq_true hc,
        Bool.true_or]
      rw [List.find?_cons_of_pos _ (by simp)]
      simp
    · simp only [List.map_cons, if_neg hc, List.any_cons, decide_eq_false hc,
        Bool.false_or]
      rw [List.find?_cons_of_neg _ (by simpa using hc)]
      exact ih

theorem find?_setCol_map_ne (cols : List (String × List Cell)) (m n : String)
    (cells : List Cell) (hnm : n ≠ m) :
    (cols.map (fun c => if c.1 = m then (m, cells) else c)).find?
        (fun c => decide (c.1 = n))
      = cols.find? (fun c => decide (c.1 = n)) := by
  induction cols with
  | nil => rfl
  | cons c t ih =>
    by_cases hc : c.1 = m
    · simp only [List.map_cons, if_pos hc]
      rw [List.find?_cons_of_neg _ (by simpa using (Ne.symm hnm)),
        List.find?_cons_of_neg _ (by simp [hc]; exact fun e => hnm e.symm)]
      exact ih
    · simp only [List.map_cons, if_neg hc]
      by_cases hn : c.1 = n
      · rw [List.find?_cons_of_pos _ (by simpa using hn),
          List.find?_cons_of_pos _ (by simpa using hn)]
      · rw [List.find?_cons_of_neg _ (by simpa using hn),
          List.find?_cons_of_neg _ (by simpa using hn)]
        exact ih

theorem Frame.getCol_addCol (f : Frame) (m n : String) (cells : List Cell) :
    (f.addCol m cells).getCol n = if n = m then cells else f.getCol n := by
  unfold Frame.addCol Frame.getCol setCol
  by_cases hany : f.cols.any (fun c => decide (c.1 = m))
  · rw [if_pos hany]
    by_cases hnm : n = m
    · subst hnm
      simp only [find?_setCol_map_self, if_pos hany]
      simp
    · simp only [find?_setCol_map_ne f.cols m n cells hnm, if_neg hnm]
  · rw [if_neg hany]
    rw [List.find?_append]
    by_cases hnm : n = m
    · subst hnm
      have hnone : f.cols.find? (fun c => decide (c.1 = n)) = none := by
        rw [List.find?_eq_none]
        intro c hc
        simpa using (List.any_eq_false.mp (Bool.eq_false_iff.mpr hany) c hc)
      rw [hnone]
      simp
    · have : ([(m, cells)].find? (fun c => decide (c.1 = n))) = none := by
        rw [List.find?_eq_none]
        intro c hc
        simp only [List.mem_singleton] at hc
        subst hc
        simpa using fun e => hnm e.symm
      rw [this, if_neg hnm]
      cases f.cols.find? (fun c => decide (c.1 = n)) <;> rfl

theorem Frame.index_addCol (f : Frame) (m : String) (cells : List Cell) :
    (f.addCol m cells).index = f.index := rfl

/-- The forward name is strictly longer than the dependent variable's name,
hence distinct from it. -/
theorem fwdName_ne (d : String) (h : Int) : fwdName d h ≠ d := by
  intro e
  have hlen := congrArg String.length e
  rw [fwdName] at hlen
  rw [String.length_append, String.length_append] at hlen
  have h5 : ("_fwd_" : String).length = 5 := rfl
  omega

theorem addFwdCols_index (depvar : String) (horizon_l : List Int) (f : Frame) :
    (addFwdCols depvar horizon_l f).index = f.index := by
  induction horizon_l generalizing f with
  | nil => rfl
  | cons h t ih =>
    unfold addFwdCols
    rw [List.foldl_cons]
    by_cases hp : (0 : Int) < h
    · rw [if_pos hp]
      exact (ih _).trans rfl
    · rw [if_neg hp]
      exact ih f

theorem addFwdCols_getCol_not_fwd (depvar : String) (horizon_l : List Int)
    (f : Frame) (n : String)
    (hn : ∀ h ∈ horizon_l, 0 < h → n ≠ fwdName depvar h) :
    (addFwdCols depvar horizon_l f).getCol n = f.getCol n := by
  induction horizon_l generalizing f with
  | nil => rfl
  | cons h t ih
  =>
    unfold addFwdCols
    rw [List.foldl_cons]
    by_cases hp : (0 : Int) < h
    · rw [if_pos hp]
      have step := Frame.getCol_addCol f (fwdName depvar h) n
        (shiftFwd h.toNat (f.getCol depvar))
      rw [if_neg (hn h (List.mem_cons_self h t) hp)] at step
      have ihx := ih (f.addCol (fwdName depvar h) (shiftFwd h.toNat (f.getCol depvar)))
        (fun h' hm hp' => hn h' (List.mem_cons_of_mem h hm) hp')
      unfold addFwdCols at ihx
      rw [ihx, step]
    · rw [if_neg hp]
      exact ih f (fun h' hm hp' => hn h' (List.mem_cons_of_mem h hm) hp')

theorem addFwdCols_getCol_depvar (depvar : String) (horizon_l : List Int) (f : Frame) :
    (addFwdCols depvar horizon_l f).getCol depvar = f.getCol depvar :=
  addFwdCols_getCol_not_fwd depvar horizon_l f depvar
    (fun h _ _ => (fwdName_ne depvar h).symm)

/-- The central column lemma: under freshness of the forward names, the
column created for a positive horizon `h` of the input list is exactly the
dependent-variable column of the cleaned frame shifted forward by `h`. -/
theorem addFwdCols_getCol_fwd (depvar : String) (horizon_l : List Int) (f : Frame)
    (h : Int) (hmem : h ∈ horizon_l) (hpos : 0 < h)
    (hnd : ((horizon_l.filter (fun x => decide (0 < x))).map (fwdName depvar)).Nodup) :
    (addFwdCols depvar horizon_l f).getCol (fwdName depvar h)
      = shiftFwd h.toNat (f.getCol depvar) := by
  induction horizon_l generalizing f with
  | nil => simp at hmem
  | cons h' t ih =>
    unfold addFwdCols
    rw [List.foldl_cons]
    by_cases hp : (0 : Int) < h'
    · rw [if_pos hp]
      have hfh : List.filter (fun x => decide (0 < x)) (h' :: t)
          = h' :: List.filter (fun x => decide (0 < x)) t := by
        simp [List.filter_cons, hp]
      rw [hfh, List.map_cons, List.nodup_cons] at hnd
      by_cases hsame : fwdName depvar h = fwdName depvar h'
      · -- the head step writes the column we read; by freshness, the head
        -- horizon must be h itself, and no later step rewrites the column
        have hh : h = h' := by
          by_contra hne
          have hm : h ∈ t := by
            rcases List.mem_cons.mp hmem with e | hm
            · exact absurd e hne
            · exact hm
          exact hnd.1 (hsame ▸ List.mem_map.mpr
            ⟨h, List.mem_filter.mpr ⟨hm, by simpa using hpos⟩, rfl⟩)
        subst hh
        have hno : ∀ h'' ∈ t, 0 < h'' → fwdName depvar h ≠ fwdName depvar h'' := by
          intro h'' hm hp'' e
          exact hnd.1 (e ▸ List.mem_map.mpr
            ⟨h'', List.mem_filter.mpr ⟨hm, by simpa using hp''⟩, rfl⟩)
        have hread := addFwdCols_getCol_not_fwd depvar t
          (f.addCol (fwdName depvar h) (shiftFwd h.toNat (f.getCol depvar)))
          (fwdName depvar h) hno
        unfold addFwdCols at hread
        rw [hread, Frame.getCol_addCol, if_pos rfl]
      · -- the head step writes a different column; recurse, noting the
        -- depvar column itself is never overwritten
        have hm : h ∈ t := by
          rcases List.mem_cons.mp hmem with e | hm
          · exact absurd (by rw [e]) hsame
          · exact hm
        have ihx := ih (f.addCol (fwdName depvar h') (shiftFwd h'.toNat (f.getCol depvar))) hm hnd.2
        unfold addFwdCols at ihx
        have hdep : (f.addCol (fwdName depvar h')
              (shiftFwd h'.toNat (f.getCol depvar))).getCol depvar
            = f.getCol depvar := by
          rw [Frame.getCol_addCol, if_neg (fwdName_ne depvar h').symm]
        rw [ihx, hdep]
    · rw [if_neg hp]
      have hfh : List.filter (fun x => decide (0 < x)) (h' :: t)
          = List.filter (fun x => decide (0 < x)) t := by
        simp [List.filter_cons, hp]
      rw [hfh] at hnd
      have hm : h ∈ t := by
        rcases List.mem_cons.mp hmem with e | hm
        · subst e; exact absurd hpos hp
        · exact hm
      have ihx := ih f hm hnd
      unfold addFwdCols at ihx
      exact ihx

/-! ## Shift lemmas -/

theorem shiftFwd_length (h : Nat) (xs : List Cell) :
    (shiftFwd h xs).length = xs.length := by
  unfold shiftFwd
  rw [List.length_append, List.length_drop, List.length_replicate]
  omega

theorem shiftFwd_zero (xs : List Cell) : shiftFwd 0 xs = xs := by
  unfold shiftFwd
  simp

theorem shiftFwd_getElem?_front (h : Nat) (xs : List Cell) (i : Nat)
    (hi : i + h < xs.length) :
    (shiftFwd h xs)[i]? = xs[i + h]? := by
  unfold shiftFwd
  rw [List.getElem?_append_left (by rw [List.length_drop]; omega),
    List.getElem?_drop]
  congr 1
  omega

theorem shiftFwd_getElem?_back (h : Nat) (xs : List Cell) (i : Nat)
    (hge : xs.length ≤ i + h) (hlt : i < xs.length) :
    (shiftFwd h xs)[i]? = some none := by
  unfold shiftFwd
  rw [List.getElem?_append_right (by rw [List.length_drop]; omega)]
  rw [List.getElem?_replicate]
  rw [if_pos (by rw [List.length_drop]; omega)]

/-! ## Validation and length helpers -/

theorem quantilemodUnittest_ok_mem (d : String) (iv : List String)
    (cols : List String) (hz : List Int)
    (hval : quantilemodUnittest d iv cols hz = Except.ok ()) :
    d ∈ cols ∧ ∀ v ∈ iv, v ∈ cols := by
  simp only [quantilemodUnittest] at hval
  split at hval
  case isTrue hf =>
    constructor
    · by_contra hd
      have hmm : d ∈ ([d] ++ iv).filter (fun x => decide (x ∉ cols)) :=
        List.mem_filter.mpr ⟨by simp, by simpa using hd⟩
      rw [hf] at hmm
      simp at hmm
    · intro v hv
      by_contra hvc
      have hmm : v ∈ ([d] ++ iv).filter (fun x => decide (x ∉ cols)) :=
        List.mem_filter.mpr ⟨by simp [hv], by simpa using hvc⟩
      rw [hf] at hmm
      simp at hmm
  case isFalse => simp at hval

theorem getCol_length_of_mem (f : Frame) (n : String)
    (hWF : ∀ c ∈ f.cols, c.2.length = f.index.length) (hn : n ∈ f.colNames) :
    (f.getCol n).length = f.index.length := by
  unfold Frame.getCol
  cases hfind : f.cols.find? (fun c => decide (c.1 = n)) with
  | none =>
    exfalso
    rw [List.find?_eq_none] at hfind
    unfold Frame.colNames at hn
    obtain ⟨pair, hp, he⟩ := List.mem_map.mp hn
    exact hfind pair hp (by simpa using he)
  | some pair => exact hWF pair (List.mem_of_find?_eq_some hfind)

/-! ## Claim C7 -/

/-- C7: for a horizon `h > 0` of the horizon list, the derived
dependent-variable column of the builder's dataset is the dependent-variable
column shifted forward by `h`: the value at row `i` is the dependent
variable's value at row `i + h`, and the last `h` positions are missing; for
`h = 0` the derived variable is the dependent variable itself (the same
equations hold trivially with a shift of 0).  Freshness of the generated
forward names (automatic for distinct horizons) is the `hnd` hypothesis. -/
theorem c7_derived_column_is_forward_shift (d : String) (iv : List String)
    (data : Frame) (hz : List Int) (h : Int) (hmem : h ∈ hz) (hpos : 0 ≤ h)
    (hnd : ((hz.filter (fun x => decide (0 < x))).map (fwdName d)).Nodup) :
    (quantileProjBuild d iv data hz).data.getCol (derivedName d h)
      = shiftFwd h.toNat ((quantileProjBuild d iv data hz).data.getCol d)
    ∧ (∀ i : Nat,
        i + h.toNat < ((quantileProjBuild d iv data hz).data.getCol d).length →
        ((quantileProjBuild d iv data hz).data.getCol (derivedName d h))[i]?
          = ((quantileProjBuild d iv data hz).data.getCol d)[i + h.toNat]?)
    ∧ (∀ i : Nat,
        ((quantileProjBuild d iv data hz).data.getCol d).length ≤ i + h.toNat →
        i < ((quantileProjBuild d iv data hz).data.getCol d).length →
        ((quantileProjBuild d iv data hz).data.getCol (derivedName d h))[i]?
          = some none) := by
  have hdep : (quantileProjBuild d iv data hz).data.getCol d
      = ((data.select ([d] ++ iv)).dropna).getCol d :=
    addFwdCols_getCol_depvar d hz _
  have hmain : (quantileProjBuild d iv data hz).data.getCol (derivedName d h)
      = shiftFwd h.toNat ((quantileProjBuild d iv data hz).data.getCol d) := by
    rcases eq_or_lt_of_le hpos with h0 | hgt
    · have h0' : h = 0 := h0.symm
      subst h0'
      rw [derivedName, if_pos rfl]
      simp [Int.toNat_zero, shiftFwd_zero]
    · rw [derivedName, if_neg (by omega)]
      have hfwd : (quantileProjBuild d iv data hz).data.getCol (fwdName d h)
          = shiftFwd h.toNat (((data.select ([d] ++ iv)).dropna).getCol d) :=
        addFwdCols_getCol_fwd d hz _ h hmem hgt hnd
      rw [hfwd, hdep]
  refine ⟨hmain, ?_, ?_⟩
  · intro i hi
    rw [hmain]
    exact shiftFwd_getElem?_front h.toNat _ i hi
  · intro i hge hlt
    rw [hmain]
    exact shiftFwd_getElem?_back h.toNat _ i hge hlt

/-- Witness for C7 at depvar y, indvars [x], horizons [0, 1], horizon 1. -/
theorem c7_derived_column_is_forward_shift_witness :
    ((1 : Int) ∈ [(0 : Int), 1]
      ∧ (0 : Int) ≤ 1
      ∧ (([(0 : Int), 1].filter (fun x => decide (0 < x))).map (fwdName "y")).Nodup)
    ∧ (quantileProjBuild "y" ["x"] exDataFull [0, 1]).data.getCol (derivedName "y" 1)
        = shiftFwd (1 : Int).toNat
            ((quantileProjBuild "y" ["x"] exDataFull [0, 1]).data.getCol "y") :=
  ⟨by decide,
    (c7_derived_column_is_forward_shift "y" ["x"] exDataFull [0, 1] 1
      (by decide) (by decide) (by decide)).1⟩

/-! ## Claim C8 -/

/-- C8: for every valid input, the dataset produced by the builder has no
missing value in the dependent-variable column or in any
independent-variable column (only the derived forward columns carry the
trailing NaNs), and its row count is at most the input's row count.
`hfresh` rules out the degenerate aliasing of a generated forward name with
a used column name. -/
theorem c8_cleaned_dataset_no_missing (d : String) (iv : List String)
    (data : Frame) (hz : List Int)
    (hval : quantilemodUnittest d iv data.colNames hz = Except.ok ())
    (hfresh : ∀ h ∈ hz, 0 < h → fwdName d h ∉ d :: iv) :
    (∀ c ∈ d :: iv, ∀ cell ∈ (quantileProjBuild d iv data hz).data.getCol c,
      cell.isSome)
    ∧ (quantileProjBuild d iv data hz).data.nrows ≤ data.nrows := by
  constructor
  · intro c hc cell hcell
    have hne : ∀ h ∈ hz, 0 < h → c ≠ fwdName d h := by
      intro h hm hp e
      exact hfresh h hm hp (e ▸ hc)
    have hcol : (quantileProjBuild d iv data hz).data.getCol c
        = ((data.select ([d] ++ iv)).dropna).getCol c :=
      addFwdCols_getCol_not_fwd d hz _ c hne
    rw [hcol, Frame.getCol_dropna] at hcell
    obtain ⟨j, hmask, hj⟩ := maskFilter_mem _ _ _ hcell
    -- decode the mask entry at position j
    unfold Frame.dropnaMask at hmask
    rw [List.getElem?_map] at hmask
    obtain ⟨v, hv, hgv⟩ := Option.map_eq_some'.mp hmask
    have hjlt : j < (data.select ([d] ++ iv)).index.length := by
      by_contra hge
      rw [List.getElem?_eq_none (by simpa [List.length_range] using hge)] at hv
      cases hv
    rw [List.getElem?_range hjlt] at hv
    have hvj : v = j := by
      injection hv with hv
      exact hv.symm
    subst hvj
    -- decode the column of c inside the selected frame
    rw [Frame.getCol] at hj
    cases hfind : (data.select ([d] ++ iv)).cols.find? (fun cc => decide (cc.1 = c)) with
    | none =>
      rw [hfind] at hj
      simp at hj
    | some pair =>
      rw [hfind] at hj
      have hpair := List.mem_of_find?_eq_some hfind
      have hall := List.all_eq_true.mp hgv pair hpair
      rw [hj] at hall
      simpa using hall
  · show (addFwdCols d hz ((data.select ([d] ++ iv)).dropna)).index.length
      ≤ data.index.length
    rw [addFwdCols_index]
    exact maskFilter_length_le _ _

/-- Witness for C8 at depvar y, indvars [x], data with one missing y row,
horizons [1]: the theorem applies, and the cleaned y column is concretely
free of missing values while one row was dropped. -/
theorem c8_cleaned_dataset_no_missing_witness :
    quantilemodUnittest "y" ["x"] exDataGap.colNames [1] = Except.ok ()
    ∧ (quantileProjBuild "y" ["x"] exDataGap [1]).data.nrows ≤ exDataGap.nrows
    ∧ ((quantileProjBuild "y" ["x"] exDataGap [1]).data.getCol "y").all Option.isSome
        = true
    ∧ (quantileProjBuild "y" ["x"] exDataGap [1]).data.nrows = 3 :=
  ⟨rfl,
    (c8_cleaned_dataset_no_missing "y" ["x"] exDataGap [1] rfl (by decide)).2,
    by decide, by decide⟩

/-! ## Claim C10 -/

/-- C10: the forward shift is applied AFTER the missing rows were dropped:
the derived column's value at cleaned-row position `i` is the dependent
variable's value at cleaned-row position `i + h`, whose ORIGINAL position is
the index label stored there — and that label is always `≥ i + h` (strictly
greater as soon as earlier rows were dropped; the witness exhibits such an
input).  `hidx` states that the input frame carries the positional index,
`hWF` that its columns are rectangular. -/
theorem c10_shift_applied_after_dropna (d : String) (iv : List String)
    (data : Frame) (hz : List Int) (h : Int) (hmem : h ∈ hz) (hpos : 0 < h)
    (hnd : ((hz.filter (fun x => decide (0 < x))).map (fwdName d)).Nodup)
    (hval : quantilemodUnittest d iv data.colNames hz = Except.ok ())
    (hWF : ∀ c ∈ data.cols, c.2.length = data.index.length)
    (hidx : data.index = List.range data.index.length) :
    ∀ i j : Nat,
      (quantileProjBuild d iv data hz).data.index[i + h.toNat]? = some j →
      ((quantileProjBuild d iv data hz).data.getCol (fwdName d h))[i]?
          = (data.getCol d)[j]?
        ∧ i + h.toNat ≤ j := by
  intro i j hij
  -- name the intermediate frames and the mask
  set sel := data.select ([d] ++ iv) with hsel
  set m := sel.dropnaMask with hm
  -- the built index is the masked original index
  have hindex : (quantileProjBuild d iv data hz).data.index
      = maskFilter m data.index := by
    show (addFwdCols d hz sel.dropna).index = maskFilter m data.index
    rw [addFwdCols_index]
    rfl
  -- the built forward column is the shift of the masked depvar column
  have hdcol : sel.getCol d = data.getCol d :=
    Frame.getCol_select_mem data ([d] ++ iv) d (by simp)
  have hfwd : (quantileProjBuild d iv data hz).data.getCol (fwdName d h)
      = shiftFwd h.toNat (maskFilter m (data.getCol d)) := by
    have h1 : (quantileProjBuild d iv data hz).data.getCol (fwdName d h)
        = shiftFwd h.toNat (sel.dropna.getCol d) :=
      addFwdCols_getCol_fwd d hz _ h hmem hpos hnd
    rw [h1, Frame.getCol_dropna, hdcol]
  -- lengths: the masked depvar column and the masked index have equal length
  have hdmem : d ∈ data.colNames := (quantilemodUnittest_ok_mem d iv _ hz hval).1
  have hlen : (data.getCol d).length = data.index.length :=
    getCol_length_of_mem data d hWF hdmem
  have hmlen : (maskFilter m (data.getCol d)).length
      = (maskFilter m data.index).length :=
    maskFilter_length_eq m _ _ hlen
  -- the position i + h is inside the cleaned data
  have hij_lt : i + h.toNat < (maskFilter m data.index).length := by
    by_contra hge
    rw [hindex] at hij
    rw [List.getElem?_eq_none (by omega)] at hij
    cases hij
  -- obtain the cell of the masked depvar column at position i + h
  obtain ⟨x, hx⟩ : ∃ x, (maskFilter m (data.getCol d))[i + h.toNat]? = some x := by
    have : i + h.toNat < (maskFilter m (data.getCol d)).length := by omega
    exact ⟨_, (List.getElem?_eq_getElem this)⟩
  -- pair the masked column with the masked index through the masked zip
  have hzipped : (maskFilter m ((data.getCol d).zip data.index))[i + h.toNat]?
      = some (x, j) := by
    rw [maskFilter_zip m _ _ hlen]
    rw [hindex] at hij
    exact List.getElem?_zip_eq_some.mpr ⟨hx, hij⟩
  obtain ⟨t, hts, hzt⟩ := maskFilter_getElem?_pos m _ _ _ hzipped
  obtain ⟨hxt, hjt⟩ := List.getElem?_zip_eq_some.mp hzt
  -- the index label at original position t is t itself
  have htlt : t < data.index.length := by
    by_contra hge
    rw [List.getElem?_eq_none (by omega)] at hjt
    cases hjt
  have htj : t = j := by
    rw [hidx, List.getElem?_range (by simpa [List.length_range] using htlt)] at hjt
    injection hjt with hjt
  subst htj
  refine ⟨?_, hts⟩
  rw [hfwd, shiftFwd_getElem?_front h.toNat _ i (by omega), hx, hxt]

/-- Witness for C10: four rows with row 1 missing, horizon 1.  The cleaned
index is [0, 2, 3]; at cleaned position 0 the derived value comes from
cleaned position 1, i.e. ORIGINAL row 2 — strictly more than h = 1 positions
ahead in the input data. -/
theorem c10_shift_applied_after_dropna_witness :
    (quantileProjBuild "y" ["x"] exDataGap [1]).data.index = [0, 2, 3]
    ∧ ((quantileProjBuild "y" ["x"] exDataGap [1]).data.index[0 + (1 : Int).toNat]?
        = some 2)
    ∧ (((quantileProjBuild "y" ["x"] exDataGap [1]).data.getCol (fwdName "y" 1))[0]?
        = (exDataGap.getCol "y")[2]?
      ∧ 0 + (1 : Int).toNat ≤ 2)
    ∧ 0 + (1 : Int).toNat < 2 :=
  ⟨by decide, by decide,
    c10_shift_applied_after_dropna "y" ["x"] exDataGap [1] 1
      (by decide) (by decide) (by decide) rfl (by decide) (by decide)
      0 2 (by decide),
    by decide⟩


/-! ## Claim C5 -/

theorem mkDepvarList_length (d : String) (hz : List Int)
    (hnn : ∀ h ∈ hz, 0 ≤ h) : (mkDepvarList d hz).length = hz.length := by
  induction hz with
  | nil => rfl
  | cons h t ih =>
    have hh := hnn h (List.mem_cons_self h t)
    have iht := ih (fun h' hm => hnn h' (List.mem_cons_of_mem h hm))
    rw [mkDepvarList, List.flatMap_cons, List.length_append]
    rw [mkDepvarList] at iht
    rcases eq_or_lt_of_le hh with h0 | hgt
    · rw [if_pos h0.symm, if_neg (by omega)]
      simp only [List.length_append, List.length_cons, List.length_nil]
      omega
    · rw [if_neg (by omega), if_pos hgt]
      simp only [List.length_append, List.length_cons, List.length_nil]
      omega

theorem length_flatMap_const (l : List α) (f : α → List β) (k : Nat)
    (hf : ∀ a ∈ l, (f a).length = k) : (l.flatMap f).length = l.length * k := by
  induction l with
  | nil => simp
  | cons a t ih =>
    rw [List.flatMap_cons, List.length_append, hf a (List.mem_cons_self a t),
      ih (fun a' ha => hf a' (List.mem_cons_of_mem a ha)), List.length_cons,
      Nat.succ_mul, Nat.add_comm]

/-- The (horizon, tau, regressor) labels of the coefficient table, record by
record. -/
theorem mkCoeffsRows_labels (a : ℚ) (recs : List QFitRec) :
    (mkCoeffsRows a recs).map (fun r => (r.horizon, r.tau, r.regressor))
      = recs.flatMap (fun qf =>
          qf.qfit.paramNames.map (fun v => (qf.horizon, qf.tau, v))) := by
  rw [mkCoeffsRows, List.map_flatMap]
  simp only [List.map_map]
  rfl

/-- The labels of the fit-record list, under the statsmodels parameter
shape. -/
theorem mkQfitList_labels (solver : Solver) (st : QuantileProj) (qs : List ℚ)
    (hshape : SolverShape solver) :
    (mkQfitList solver st qs).flatMap (fun qf =>
        qf.qfit.paramNames.map (fun v => (qf.horizon, qf.tau, v)))
      = (qfitPairs st).flatMap (fun hd => qs.flatMap (fun t =>
          ("Intercept" :: st.indvar_l).map (fun v => (hd.1, t, v)))) := by
  rw [mkQfitList, List.flatMap_assoc]
  simp only [List.flatMap_map]
  have hs' : ∀ dv iv dat t mi pt, (solver dv iv dat t mi pt).paramNames
      = "Intercept" :: iv := hshape
  have hstep : (qfitPairs st).flatMap (fun hd => qs.flatMap (fun tau =>
      (solver hd.2 st.indvar_l st.data tau 1000 (1 / 100000)).paramNames.map
        (fun v => (hd.1, tau, v))))
      = (qfitPairs st).flatMap (fun hd => qs.flatMap (fun t =>
          ("Intercept" :: st.indvar_l).map (fun v => (hd.1, t, v)))) := by
    simp only [hs']
  exact hstep

theorem flatMap_zip_fst (hs : List Int) (dl : List String)
    (F : Int → List (Int × ℚ × String)) (hlen : hs.length ≤ dl.length) :
    (List.zip hs dl).flatMap (fun hd => F hd.1) = hs.flatMap F := by
  have h1 : (List.zip hs dl).flatMap (fun hd => F hd.1)
      = ((List.zip hs dl).map Prod.fst).flatMap F := by
    rw [List.flatMap_map]
  rw [h1, List.map_fst_zip hs dl hlen]

theorem qfitPairs_build (d : String) (iv : List String) (data : Frame)
    (hz : List Int) :
    qfitPairs (quantileProjBuild d iv data hz)
      = List.zip (List.insertionSort (· ≤ ·) hz) (mkDepvarList d hz) := rfl

theorem quantileProjBuild_indvar_l (d : String) (iv : List String) (data : Frame)
    (hz : List Int) : (quantileProjBuild d iv data hz).indvar_l = iv := rfl

/-- C5: for a successful fit over distinct non-negative horizons, the
coefficient table has exactly |horizons| x |quantiles| x (|indvars| + 1)
rows, organised as contiguous blocks in the deterministic iteration order:
horizons ascending in the outer loop, quantiles ascending in the inner loop,
one row per regressor (`Intercept` first) inside a block.  The statsmodels
parameter-vector shape is the `hshape` hypothesis. -/
theorem c5_coefficient_table_shape (solver : Solver) (d : String)
    (iv : List String) (data : Frame) (hz : List Int) (ql : List ℚ) (a : ℚ)
    (hshape : SolverShape solver)
    (hv1 : quantilemodUnittest d iv data.colNames hz = Except.ok ())
    (hv2 : quantilefitUnittest ql a = Except.ok ())
    (hnn : ∀ h ∈ hz, 0 ≤ h) (hdup : hz.Nodup) :
    (quantileFitBuild solver (quantileProjBuild d iv data hz) ql a).coeffs.length
      = hz.length * ql.length * (iv.length + 1)
    ∧ (quantileFitBuild solver (quantileProjBuild d iv data hz) ql a).coeffs.map
          (fun r => (r.horizon, r.tau, r.regressor))
        = (List.insertionSort (· ≤ ·) hz).flatMap (fun h =>
            (List.insertionSort (· ≤ ·) ql).flatMap (fun t =>
              ("Intercept" :: iv).map (fun v => (h, t, v))))
    ∧ List.Sorted (· ≤ ·) (List.insertionSort (· ≤ ·) hz)
    ∧ List.Sorted (· ≤ ·) (List.insertionSort (· ≤ ·) ql) := by
  have hhs : (List.insertionSort (· ≤ ·) hz).length = hz.length :=
    (List.perm_insertionSort _ hz).length_eq
  have hqs : (List.insertionSort (· ≤ ·) ql).length = ql.length :=
    (List.perm_insertionSort _ ql).length_eq
  have hdl : (mkDepvarList d hz).length = hz.length := mkDepvarList_length d hz hnn
  have hmap : (quantileFitBuild solver (quantileProjBuild d iv data hz) ql a).coeffs.map
        (fun r => (r.horizon, r.tau, r.regressor))
      = (List.insertionSort (· ≤ ·) hz).flatMap (fun h =>
          (List.insertionSort (· ≤ ·) ql).flatMap (fun t =>
            ("Intercept" :: iv).map (fun v => (h, t, v)))) := by
    show (mkCoeffsRows a (mkQfitList solver (quantileProjBuild d iv data hz)
        (List.insertionSort (· ≤ ·) ql))).map
          (fun r => (r.horizon, r.tau, r.regressor)) = _
    rw [mkCoeffsRows_labels, mkQfitList_labels _ _ _ hshape, qfitPairs_build,
      quantileProjBuild_indvar_l]
    exact flatMap_zip_fst (List.insertionSort (fun a b => a ≤ b) hz)
      (mkDepvarList d hz)
      (fun h => (List.insertionSort (fun a b => a ≤ b) ql).flatMap (fun t =>
        ("Intercept" :: iv).map (fun v => (h, t, v))))
      (le_of_eq (hhs.trans hdl.symm))
  refine ⟨?_, hmap, List.sorted_insertionSort _ hz, List.sorted_insertionSort _ ql⟩
  have hlenmap := congrArg List.length hmap
  rw [List.length_map] at hlenmap
  rw [hlenmap]
  have hinner : ∀ h : Int, ((List.insertionSort (· ≤ ·) ql).flatMap (fun t =>
      ("Intercept" :: iv).map (fun v => ((h, t, v) : Int × ℚ × String)))).length
      = ql.length * (iv.length + 1) := by
    intro h
    rw [length_flatMap_const _ _ (iv.length + 1) (fun t _ => by simp), hqs]
  rw [length_flatMap_const _ _ (ql.length * (iv.length + 1)) (fun h _ => hinner h),
    hhs, Nat.mul_assoc]

/-- Witness for C5: two horizons, three quantiles, one regressor give the
2 x 3 x 2 = 12 row coefficient table. -/
theorem c5_coefficient_table_shape_witness :
    quantilefitUnittest [1/4, 1/2, 3/4] (1/10) = Except.ok ()
    ∧ (quantileFitBuild trivSolver (quantileProjBuild "y" ["x"] exDataFull [0, 1])
        [1/4, 1/2, 3/4] (1/10)).coeffs.length
      = [(0 : Int), 1].length * [(1 : ℚ)/4, 1/2, 3/4].length * (["x"].length + 1) :=
  ⟨by norm_num [quantilefitUnittest],
    (c5_coefficient_table_shape trivSolver "y" ["x"] exDataFull [0, 1]
      [1/4, 1/2, 3/4] (1/10) (fun _ _ _ _ _ _ => rfl) rfl
      (by norm_num [quantilefitUnittest]) (by decide) (by decide)).1⟩

/-! ## Claim C6 -/

theorem substr_append_left (x a b : List Char) (h : x <:+: a) : x <:+: a ++ b := by
  obtain ⟨s, t, e⟩ := h
  exact ⟨s, t ++ b, by rw [← e]; simp [List.append_assoc]⟩

theorem substr_append_right (x a b : List Char) (h : x <:+: b) : x <:+: a ++ b := by
  obtain ⟨s, t, e⟩ := h
  exact ⟨a ++ s, t, by rw [← e]; simp [List.append_assoc]⟩

theorem pyReprAux_substr (c : String) (l : List String) (hc : c ∈ l) :
    c.data <:+: (pyReprAux l).data := by
  induction l with
  | nil => simp at hc
  | cons s t ih =>
    rcases List.mem_cons.mp hc with rfl | hmem
    · cases t with
      | nil =>
        show c.data <:+: ("\x27" ++ c ++ "\x27").data
        simp only [String.data_append]
        exact substr_append_left _ _ _ (substr_append_right _ _ _ (List.infix_refl _))
      | cons s2 t2 =>
        show c.data <:+: ("\x27" ++ c ++ "\x27" ++ ", " ++ pyReprAux (s2 :: t2)).data
        simp only [String.data_append]
        exact substr_append_left _ _ _ (substr_append_left _ _ _
          (substr_append_left _ _ _ (substr_append_right _ _ _ (List.infix_refl _))))
    · cases t with
      | nil => simp at hmem
      | cons s2 t2 =>
        show c.data <:+: ("\x27" ++ s ++ "\x27" ++ ", " ++ pyReprAux (s2 :: t2)).data
        simp only [String.data_append]
        exact substr_append_right _ _ _ (ih hmem)

theorem pyRepr_substr (c : String) (l : List String) (hc : c ∈ l) :
    c.data <:+: (pyRepr l).data := by
  show c.data <:+: ("[" ++ pyReprAux l ++ "]").data
  simp only [String.data_append]
  exact substr_append_left _ _ _ (substr_append_right _ _ _ (pyReprAux_substr c l hc))

theorem quantileprojUnittest_error (iv condCols : List String)
    (hne : iv.filter (fun x => decide (x ∉ condCols)) ≠ []) :
    quantileprojUnittest iv condCols
      = Except.error (pyRepr (iv.filter (fun x => decide (x ∉ condCols)))
          ++ " not in conditioning frame columns") := by
  simp only [quantileprojUnittest]
  rw [if_neg hne]

/-- C6: when the conditioning frame lacks an independent variable used at
fit time, the projection constructor fails with the assert error whose
message (a genuine f-string here) contains every missing column name — in
particular the missing `c` — and no forecast table is constructed (the
constructor returns the error instead of a projection state). -/
theorem c6_projection_missing_column_error (fit : QuantileFit) (cond : Frame)
    (c : String) (hc : c ∈ fit.base.indvar_l) (hmiss : c ∉ cond.colNames) :
    quantileProjectionInit fit cond
      = Except.error (pyRepr (fit.base.indvar_l.filter
            (fun x => decide (x ∉ cond.colNames)))
          ++ " not in conditioning frame columns")
    ∧ c.data <:+: (pyRepr (fit.base.indvar_l.filter
            (fun x => decide (x ∉ cond.colNames)))
          ++ " not in conditioning frame columns").data := by
  have hcm : c ∈ fit.base.indvar_l.filter (fun x => decide (x ∉ cond.colNames)) :=
    List.mem_filter.mpr ⟨hc, by simpa using hmiss⟩
  have hne : fit.base.indvar_l.filter (fun x => decide (x ∉ cond.colNames)) ≠ [] := by
    intro e
    rw [e] at hcm
    simp at hcm
  constructor
  · show (match quantileprojUnittest fit.base.indvar_l cond.colNames with
        | Except.error e => Except.error e
        | Except.ok _ => Except.ok (quantileProjectionBuild fit cond)) = _
    rw [quantileprojUnittest_error _ _ hne]
  · rw [String.data_append]
    exact substr_append_left _ _ _ (pyRepr_substr c _ hcm)

/-- Witness for C6: a fit on indvars [x] projected on a frame with only a
column z fails with the message naming x. -/
theorem c6_projection_missing_column_error_witness :
    ("x" ∈ (quantileFitBuild trivSolver
        (quantileProjBuild "y" ["x"] exDataFull [0]) [1/2] (1/10)).base.indvar_l)
    ∧ quantileProjectionInit (quantileFitBuild trivSolver
          (quantileProjBuild "y" ["x"] exDataFull [0]) [1/2] (1/10)) exCondZ
        = Except.error (pyRepr ((quantileFitBuild trivSolver
              (quantileProjBuild "y" ["x"] exDataFull [0])
              [1/2] (1/10)).base.indvar_l.filter
            (fun x => decide (x ∉ exCondZ.colNames)))
          ++ " not in conditioning frame columns") :=
  ⟨List.mem_cons_self "x" [],
    (c6_projection_missing_column_error _ _ "x" (List.mem_cons_self "x" [])
      (by decide)).1⟩

/-! ## Claim C9 -/

/-- C9: the forecast table is a pure, deterministic function of the fit
records and the conditioning frame alone: two projection states built from
fitted results that agree on their fit records, against equal conditioning
frames, carry identical forecast tables — in particular calling the
projection twice with the same inputs yields identical tables. -/
theorem c9_projection_deterministic_pure (fit1 fit2 : QuantileFit)
    (cond1 cond2 : Frame) (hq : fit1.qfit_l = fit2.qfit_l) (hc : cond1 = cond2) :
    (quantileProjectionBuild fit1 cond1).proj_condquant
      = (quantileProjectionBuild fit2 cond2).proj_condquant := by
  show projCondQuant fit1.qfit_l cond1 = projCondQuant fit2.qfit_l cond2
  rw [hq, hc]

/-- Witness for C9: the same fit records under two different confidence
parameters produce identical forecast tables for the same conditioning
frame. -/
theorem c9_projection_deterministic_pure_witness :
    (quantileFitBuild trivSolver (quantileProjBuild "y" ["x"] exDataFull [0])
        [1/2] (1/10)).qfit_l
      = (quantileFitBuild trivSolver (quantileProjBuild "y" ["x"] exDataFull [0])
        [1/2] (1/5)).qfit_l
    ∧ (quantileProjectionBuild (quantileFitBuild trivSolver
          (quantileProjBuild "y" ["x"] exDataFull [0]) [1/2] (1/10))
        exDataFull).proj_condquant
      = (quantileProjectionBuild (quantileFitBuild trivSolver
          (quantileProjBuild "y" ["x"] exDataFull [0]) [1/2] (1/5))
        exDataFull).proj_condquant :=
  ⟨rfl, c9_projection_deterministic_pure _ _ _ _ rfl rfl⟩
